import Mathlib

/-!
# Formal model of the rust-evo2 simulation core

A shallow embedding in Lean 4 of the cell/world artificial-life simulation
(src/cell.rs, src/world.rs, src/number_types.rs, src/food_sources.rs).

Floating-point (`f32`) values are modelled as exact rationals (`ℚ`); the
clipping behaviour of the bounded wrapper types (`F32Positive`,
`F32ZeroToOne`, `F32ZeroToOnePerF32Positive`) is modelled explicitly with
`max`/`min`.  The sole place where IEEE special values matter is
`World::step`'s per-cell food-share division with an empty population
(0.0 / 0 is NaN, which makes `F32Positive::checked`'s assertion panic);
that case is modelled explicitly with an `Option`.

The mutation-number source (a stateful trait object backed by a thread-local
RNG in the Rust code) is modelled as a stream of binary functions indexed by
a call counter that is threaded through the simulation, so that each call to
`mutate` consumes one index.
-/

/-- `F32Positive::clipped`: `value.max(0.0)`. -/
def F32Positive.clipped (x : ℚ) : ℚ := max x 0

/-- `Sub`/`SubAssign` for `F32Positive`: `Self::clipped(self.value() - other.value())`. -/
def F32Positive.sub (a b : ℚ) : ℚ := F32Positive.clipped (a - b)

/-- `F32ZeroToOne::clipped`: `value.max(0.0).min(1.0)`. -/
def F32ZeroToOne.clipped (x : ℚ) : ℚ := min (max x 0) 1

/-- `Mul<F32Positive> for F32ZeroToOnePerF32Positive`:
`F32ZeroToOne::clipped(self.value() * other.value())`. -/
def F32ZeroToOnePerF32Positive.mul (rate x : ℚ) : ℚ := F32ZeroToOne.clipped (rate * x)

/-- `CellConstants` (src/cell.rs): per-lineage immutable constants. -/
structure CellConstants where
  create_child_energy : ℚ
  energy_yield_from_digestion : ℚ
  food_yield_from_eating : ℚ
  health_increase_per_healing_energy : ℚ
  health_reduction_from_entropy : ℚ
  health_reduction_per_energy_expended : ℚ
  attempted_eating_energy_mutation_stdev : ℚ
  attempted_healing_energy_mutation_stdev : ℚ
  child_threshold_energy_mutation_stdev : ℚ
  child_threshold_food_mutation_stdev : ℚ
deriving DecidableEq, Repr

/-- `CellParams` (src/cell.rs): heritable per-agent parameters. -/
structure CellParams where
  attempted_eating_energy : ℚ
  attempted_healing_energy : ℚ
  child_threshold_energy : ℚ
  child_threshold_food : ℚ
deriving DecidableEq, Repr

/-- `CellState` (src/cell.rs): per-agent mutable state. -/
structure CellState where
  energy : ℚ
  health : ℚ
deriving DecidableEq, Repr

/-- `Cell` (src/cell.rs).  The `Rc<CellConstants>` reference is modelled as a
plain field; "same reference" becomes equality of the field. -/
structure Cell where
  constants : CellConstants
  params : CellParams
  state : CellState
deriving DecidableEq, Repr

/-- `CellEnvironment` (src/cell.rs). -/
structure CellEnvironment where
  food_per_cell : ℚ
deriving DecidableEq, Repr

/-- `CellEnergies` (src/cell.rs). -/
structure CellEnergies where
  reproduction : ℚ
  eating : ℚ
  healing : ℚ
deriving DecidableEq, Repr

/-- The `MutationNumberSource` trait: a stream of `mutate(value, stdev)`
functions, one per call index. -/
def MutationNumberSource : Type := ℕ → ℚ → ℚ → ℚ

/-- `budget` (src/cell.rs): ration `available` across the `desired` amounts,
scaling proportionally by `available / desired_sum` under scarcity.  The Rust
function is generic over a fixed array size `N`; lists model that. -/
def budget (available : ℚ) (desired : List ℚ) : ℚ × List ℚ :=
  let desired_sum := desired.sum
  if available < desired_sum then
    (available, desired.map fun item => item * (available / desired_sum))
  else
    (desired_sum, desired)

/-- `Cell::budget_including_reproduction` (src/cell.rs). -/
def Cell.budget_including_reproduction (c : Cell) : ℚ × CellEnergies :=
  let r := budget c.state.energy
    [c.params.child_threshold_energy, c.params.attempted_eating_energy,
      c.params.attempted_healing_energy]
  (r.1, { reproduction := r.2.getD 0 0, eating := r.2.getD 1 0, healing := r.2.getD 2 0 })

/-- `Cell::budget_excluding_reproduction` (src/cell.rs): reproduction gets zero. -/
def Cell.budget_excluding_reproduction (c : Cell) : ℚ × CellEnergies :=
  let r := budget c.state.energy
    [c.params.attempted_eating_energy, c.params.attempted_healing_energy]
  (r.1, { reproduction := 0, eating := r.2.getD 0 0, healing := r.2.getD 1 0 })

/-- `Cell::can_reproduce` (src/cell.rs). -/
def Cell.can_reproduce (c : Cell) (reproduction_energy : ℚ)
    (environment : CellEnvironment) : Bool :=
  decide (reproduction_energy ≥ c.params.child_threshold_energy) &&
    decide (environment.food_per_cell ≥ c.params.child_threshold_food)

/-- `Cell::mutate` (src/cell.rs): perturb each heritable parameter with its own
configured standard deviation; the four calls consume indexes `k..k+3`. -/
def Cell.mutate (c : Cell) (src : MutationNumberSource) (k : ℕ) : Cell :=
  { c with params := {
      attempted_eating_energy :=
        src k c.params.attempted_eating_energy c.constants.attempted_eating_energy_mutation_stdev,
      attempted_healing_energy :=
        src (k + 1) c.params.attempted_healing_energy c.constants.attempted_healing_energy_mutation_stdev,
      child_threshold_energy :=
        src (k + 2) c.params.child_threshold_energy c.constants.child_threshold_energy_mutation_stdev,
      child_threshold_food :=
        src (k + 3) c.params.child_threshold_food c.constants.child_threshold_food_mutation_stdev } }

/-- `Cell::reproduce` (src/cell.rs): clone, mutate the clone, set its health to
1.0 and its energy to the (clipped) difference of the reproduction energy and
the cost of creating a child. -/
def Cell.reproduce (c : Cell) (reproduction_energy : ℚ) (src : MutationNumberSource)
    (k : ℕ) : Cell :=
  let child := c.mutate src k
  { child with state := {
      energy := F32Positive.sub reproduction_energy c.constants.create_child_energy,
      health := 1 } }

/-- `Cell::budget_and_maybe_reproduce` (src/cell.rs). -/
def Cell.budget_and_maybe_reproduce (c : Cell) (src : MutationNumberSource) (k : ℕ)
    (environment : CellEnvironment) : ℚ × CellEnergies × Option Cell × ℕ :=
  let p := c.budget_including_reproduction
  if c.can_reproduce p.2.reproduction environment then
    (p.1, p.2, some (c.reproduce p.2.reproduction src k), k + 4)
  else
    let q := c.budget_excluding_reproduction
    (q.1, q.2, none, k)

/-- `Cell::eat` (src/cell.rs): food gained is capped by the per-cell share. -/
def Cell.eat (c : Cell) (eating_energy food_per_cell : ℚ) : ℚ :=
  min (eating_energy * c.constants.food_yield_from_eating) food_per_cell

/-- `Cell::digest` (src/cell.rs): energy increases by food times yield
(`AddAssign` for `F32Positive` is unchecked). -/
def Cell.digest (c : Cell) (food_amount : ℚ) : Cell :=
  { c with state := { c.state with
      energy := c.state.energy + food_amount * c.constants.energy_yield_from_digestion } }

/-- `Cell::entropy` (src/cell.rs): unconditional clipped health decay. -/
def Cell.entropy (c : Cell) : Cell :=
  { c with state := { c.state with
      health := F32ZeroToOne.clipped
        (c.state.health - c.constants.health_reduction_from_entropy) } }

/-- `Cell::heal` (src/cell.rs): the healing increment is itself a clipped
`[0,1]` product, then added with clipping. -/
def Cell.heal (c : Cell) (healing_energy : ℚ) : Cell :=
  { c with state := { c.state with
      health := F32ZeroToOne.clipped (c.state.health +
        F32ZeroToOnePerF32Positive.mul c.constants.health_increase_per_healing_energy
          healing_energy) } }

/-- `Cell::expend_energy` (src/cell.rs): clipped energy subtraction and clipped
health loss proportional to the energy expended. -/
def Cell.expend_energy (c : Cell) (energy : ℚ) : Cell :=
  { c with state := {
      energy := F32Positive.sub c.state.energy energy,
      health := F32ZeroToOne.clipped (c.state.health -
        F32ZeroToOnePerF32Positive.mul c.constants.health_reduction_per_energy_expended
          energy) } }

/-- `Cell::is_alive` (src/cell.rs): `health().value() > 0.0`. -/
def Cell.is_alive (c : Cell) : Bool := decide (0 < c.state.health)

/-- Result of `Cell::step`: the updated cell, the optional child, the food
consumed, and the advanced mutation-source call counter. -/
structure CellStepResult where
  cell : Cell
  child : Option Cell
  food_eaten : ℚ
  counter : ℕ
deriving DecidableEq, Repr

/-- `Cell::step` (src/cell.rs). -/
def Cell.step (c : Cell) (src : MutationNumberSource) (k : ℕ)
    (environment : CellEnvironment) : CellStepResult :=
  let r := c.budget_and_maybe_reproduce src k environment
  let c1 := c.expend_energy r.1
  let food := c1.eat r.2.1.eating environment.food_per_cell
  let c2 := c1.digest food
  let c3 := c2.entropy
  let c4 := c3.heal r.2.1.healing
  ⟨c4, r.2.2.1, food, r.2.2.2⟩

/-- `NullMutationNumberSource::mutate` (src/cell.rs): identity on the value. -/
def NullMutationNumberSource.mutate (value _stdev : ℚ) : ℚ := value

/-- `RandomMutationNumberSource::mutate` (src/cell.rs): sample from a normal
distribution centred on `value` with spread `stdev` until the draw is
non-negative.  The draws are modelled as an abstract finite prefix of the
sample stream; `none` models a loop that has not yet accepted a draw within
the given prefix. -/
def RandomMutationNumberSource.mutate (_value _stdev : ℚ) (samples : List ℚ) : Option ℚ :=
  samples.find? fun mutated => decide (0 ≤ mutated)

/-- C1: Budget allocator correctness.  For every `available ≥ 0` and every list
of desired amounts `≥ 0`: the granted amounts sum to at most `available`; if
the desired sum fits, every request is granted in full and the total is the
desired sum; otherwise each request is scaled by `available / sum(desired)`
and the total is `available`; a zero desired sum grants zero to everyone with
total zero (no division by zero); and `budget(7.5, [10, 5]) = (7.5, [5.0, 2.5])`. -/
theorem budget_correct (available : ℚ) (desired : List ℚ)
    (ha : 0 ≤ available) (hd : ∀ d ∈ desired, 0 ≤ d) :
    (budget available desired).2.sum ≤ available ∧
    (desired.sum ≤ available →
      (budget available desired).2 = desired ∧
      (budget available desired).1 = desired.sum) ∧
    (available < desired.sum →
      (budget available desired).2 =
        desired.map (fun d => d * (available / desired.sum)) ∧
      (budget available desired).1 = available) ∧
    (desired.sum = 0 →
      (budget available desired).1 = 0 ∧
      ∀ g ∈ (budget available desired).2, g = 0) ∧
    budget (15/2) [10, 5] = (15/2, [5, 5/2]) := by
  have hsum : 0 ≤ desired.sum := List.sum_nonneg hd
  refine ⟨?_, ?_, ?_, ?_, ?_⟩
  · unfold budget
    dsimp only
    split
    · next hlt =>
      have hne : desired.sum ≠ 0 := by
        intro h0
        rw [h0] at hlt
        exact absurd hlt (not_lt.mpr ha)
      simp only
      rw [List.sum_map_mul_right]
      simp only [List.map_id']
      rw [mul_comm, div_mul_cancel₀ _ hne]
    · next hge => simpa using not_lt.mp hge
  · intro hle
    unfold budget
    rw [if_neg (not_lt.mpr hle)]
    exact ⟨rfl, rfl⟩
  · intro hlt
    unfold budget
    rw [if_pos hlt]
    exact ⟨rfl, rfl⟩
  · intro h0
    unfold budget
    rw [if_neg (by rw [h0]; exact not_lt.mpr ha)]
    refine ⟨h0, fun g hg => le_antisymm ?_ (hd g hg)⟩
    calc g ≤ desired.sum := List.single_le_sum hd g hg
    _ = 0 := h0
  · unfold budget
    norm_num

/-- Witness for C1 at `available = 1`, `desired = [1]`. -/
theorem budget_correct_witness : (budget 1 [1]).2.sum ≤ 1 :=
  (budget_correct 1 [1] (by norm_num) (by intro d hd; simp at hd; simp [hd])).1

/-- `FoodSource` (src/food_sources.rs): the two concrete variants. -/
inductive FoodSource where
  | constantSource (food_per_step : ℚ)
  | linearlyGrowing (next_food food_increase_per_step : ℚ)
deriving DecidableEq, Repr

/-- `FoodSource::food_this_step`: yields this step's amount and the advanced
source state (`LinearlyGrowingFoodSource` adds its increment with the
unchecked `AddAssign`). -/
def FoodSource.food_this_step : FoodSource → ℚ × FoodSource
  | .constantSource f => (f, .constantSource f)
  | .linearlyGrowing n i => (n, .linearlyGrowing (n + i) i)

/-- `World` (src/world.rs). -/
structure World where
  cells : List Cell
  food : ℚ
  food_sources : List FoodSource
deriving DecidableEq, Repr

/-- `World::step_food_sources` (src/world.rs): poll every source once, adding
each yielded amount to the pool (unchecked `AddAssign`). -/
def World.step_food_sources (w : World) : World :=
  let p := w.food_sources.foldl
    (fun (acc : ℚ × List FoodSource) fs =>
      let r := fs.food_this_step
      (acc.1 + r.1, acc.2 ++ [r.2]))
    (w.food, [])
  { w with food := p.1, food_sources := p.2 }

/-- The loop body of `World::step_cells` (src/world.rs), iterating the
pre-tick cells: step each cell, subtract the consumed food from the pool
(clipped `SubAssign`), collect children and the indexes of dead cells.
Returns (stepped cells, remaining food, counter, new cells, dead indexes). -/
def World.step_cells_go (src : MutationNumberSource) (environment : CellEnvironment) :
    List Cell → ℕ → ℚ → ℕ → List Cell × ℚ × ℕ × List Cell × List ℕ
  | [], _, food, k => ([], food, k, [], [])
  | c :: rest, index, food, k =>
    let r := c.step src k environment
    let food1 := F32Positive.sub food r.food_eaten
    let t := World.step_cells_go src environment rest (index + 1) food1 r.counter
    (r.cell :: t.1, t.2.1, t.2.2.1,
      (match r.child with
        | some child => child :: t.2.2.2.1
        | none => t.2.2.2.1),
      (if r.cell.is_alive then t.2.2.2.2 else index :: t.2.2.2.2))

/-- `Vec::swap_remove(index)`: replace the element at `index` with the last
element and shrink by one.  (Out-of-range indexes panic in Rust; they never
occur in `World::remove_cells` and are mapped to a no-op `set` here.) -/
def swap_remove (cells : List Cell) (index : ℕ) : List Cell :=
  match cells.getLast? with
  | none => cells
  | some last => (cells.set index last).dropLast

/-- `World::remove_cells` (src/world.rs): swap-remove the dead indexes,
iterating the ascending index list in reverse (highest first). -/
def World.remove_cells (cells : List Cell) (sorted_indexes : List ℕ) : List Cell :=
  sorted_indexes.reverse.foldl swap_remove cells

/-- Result of `World::step`: the updated world, the advanced mutation counter,
and the `(number added, number died)` pair the Rust function returns. -/
structure WorldStepResult where
  world : World
  counter : ℕ
  num_added : ℕ
  num_died : ℕ
deriving DecidableEq, Repr

/-- `World::step` (src/world.rs), with the mutation source threaded through as
in the caller `main_support::run`.  The per-cell food share is
`food / cells.len()` with no guard for an empty population: with zero cells
and a zero pool the `f32` division yields NaN and the `F32Positive::checked`
conversion panics on its `value >= 0.0` assertion — modelled as `none`.  With
zero cells and a positive pool the division yields `+inf`, which passes the
assertion and is never consumed (the cell loop is empty), so the tick
completes; the unused environment value is irrelevant to the result. -/
def World.step (w : World) (src : MutationNumberSource) (k : ℕ) : Option WorldStepResult :=
  let w1 := w.step_food_sources
  if w1.cells.length = 0 then
    if w1.food = 0 then none
    else some ⟨w1, k, 0, 0⟩
  else
    let environment : CellEnvironment := ⟨w1.food / (w1.cells.length : ℚ)⟩
    let t := World.step_cells_go src environment w1.cells 0 w1.food k
    let new_cells := t.2.2.2.1
    let dead_cell_indexes := t.2.2.2.2
    let cells2 := t.1 ++ new_cells
    some ⟨{ cells := World.remove_cells cells2 dead_cell_indexes,
            food := t.2.1,
            food_sources := w1.food_sources },
          t.2.2.1, new_cells.length, dead_cell_indexes.length⟩

/-- Iterated `World::step` (the simulation loop of `main_support::run`):
`none` as soon as any tick panics. -/
def World.stepN (src : MutationNumberSource) : ℕ → World → ℕ → Option (World × ℕ)
  | 0, w, k => some (w, k)
  | n + 1, w, k =>
    match w.step src k with
    | none => none
    | some r => World.stepN src n r.world r.counter

/-- A mutation source built from `NullMutationNumberSource`: every call is the
identity on the value. -/
def nullSrc : MutationNumberSource := fun _ value stdev =>
  NullMutationNumberSource.mutate value stdev

/-- C2: the claim says an empty-population tick skips the cell phase and is a
no-op; the code has no such guard.  With zero cells and a zero food pool,
`World::step` computes `0.0 / 0` (NaN) and `F32Positive::checked` panics on
its assertion, modelled here as `none`. -/
theorem world_step_empty_population_panics (src : MutationNumberSource) (k : ℕ) :
    World.step ⟨[], 0, []⟩ src k = none := rfl

/-- `budget_and_maybe_reproduce` in the committed case. -/
theorem bamr_of_can_reproduce (c : Cell) (src : MutationNumberSource) (k : ℕ)
    (environment : CellEnvironment)
    (hb : c.can_reproduce c.budget_including_reproduction.2.reproduction environment = true) :
    c.budget_and_maybe_reproduce src k environment =
      (c.budget_including_reproduction.1, c.budget_including_reproduction.2,
        some (c.reproduce c.budget_including_reproduction.2.reproduction src k), k + 4) := by
  simp [Cell.budget_and_maybe_reproduce, hb]

/-- `budget_and_maybe_reproduce` in the non-committed case. -/
theorem bamr_of_not_can_reproduce (c : Cell) (src : MutationNumberSource) (k : ℕ)
    (environment : CellEnvironment)
    (hb : c.can_reproduce c.budget_including_reproduction.2.reproduction environment = false) :
    c.budget_and_maybe_reproduce src k environment =
      (c.budget_excluding_reproduction.1, c.budget_excluding_reproduction.2, none, k) := by
  simp [Cell.budget_and_maybe_reproduce, hb]

/-- `can_reproduce` as a proposition about the two thresholds. -/
theorem can_reproduce_iff (c : Cell) (reproduction_energy : ℚ)
    (environment : CellEnvironment) :
    c.can_reproduce reproduction_energy environment = true ↔
      (reproduction_energy ≥ c.params.child_threshold_energy ∧
        environment.food_per_cell ≥ c.params.child_threshold_food) := by
  simp [Cell.can_reproduce]

/-- C4: Reproduction gating and redistribution.  `Cell::step` yields an
offspring exactly when the three-way budget's reproduction amount reaches the
reproduction energy threshold and the environment's food-per-cell reaches the
food threshold; when the gate fails, the committed budget is the allocator
re-run over only eating and healing against the same available energy, with
reproduction granted zero and no offspring. -/
theorem cell_step_reproduction_gating (c : Cell) (src : MutationNumberSource) (k : ℕ)
    (environment : CellEnvironment) :
    ((c.step src k environment).child.isSome ↔
      (c.budget_including_reproduction.2.reproduction ≥ c.params.child_threshold_energy ∧
        environment.food_per_cell ≥ c.params.child_threshold_food)) ∧
    (¬(c.budget_including_reproduction.2.reproduction ≥ c.params.child_threshold_energy ∧
        environment.food_per_cell ≥ c.params.child_threshold_food) →
      c.budget_and_maybe_reproduce src k environment =
        (c.budget_excluding_reproduction.1, c.budget_excluding_reproduction.2, none, k) ∧
      c.budget_excluding_reproduction.2.reproduction = 0) := by
  have hchild : (c.step src k environment).child =
      (c.budget_and_maybe_reproduce src k environment).2.2.1 := rfl
  cases hb : c.can_reproduce c.budget_including_reproduction.2.reproduction environment with
  | true =>
    have hg := (can_reproduce_iff c _ environment).mp hb
    refine ⟨?_, fun hn => absurd hg hn⟩
    rw [hchild, bamr_of_can_reproduce c src k environment hb]
    simp [hg]
  | false =>
    have hg : ¬(c.budget_including_reproduction.2.reproduction ≥
        c.params.child_threshold_energy ∧
        environment.food_per_cell ≥ c.params.child_threshold_food) := by
      intro h
      rw [(can_reproduce_iff c _ environment).mpr h] at hb
      exact Bool.noConfusion hb
    refine ⟨?_, fun _ => ⟨bamr_of_not_can_reproduce c src k environment hb, rfl⟩⟩
    rw [hchild, bamr_of_not_can_reproduce c src k environment hb]
    simp [hg]

/-- Witness for C4: a cell whose food threshold exceeds the available food
does not reproduce, and its committed budget is the eat/heal re-run. -/
theorem cell_step_reproduction_gating_witness :
    (Cell.mk ⟨0, 0, 0, 0, 0, 0, 0, 0, 0, 0⟩ ⟨0, 0, 0, 1⟩ ⟨1, 1⟩).budget_and_maybe_reproduce
        nullSrc 0 ⟨0⟩ =
      ((Cell.mk ⟨0, 0, 0, 0, 0, 0, 0, 0, 0, 0⟩ ⟨0, 0, 0, 1⟩
          ⟨1, 1⟩).budget_excluding_reproduction.1,
        (Cell.mk ⟨0, 0, 0, 0, 0, 0, 0, 0, 0, 0⟩ ⟨0, 0, 0, 1⟩
          ⟨1, 1⟩).budget_excluding_reproduction.2, none, 0) :=
  ((cell_step_reproduction_gating
      (Cell.mk ⟨0, 0, 0, 0, 0, 0, 0, 0, 0, 0⟩ ⟨0, 0, 0, 1⟩ ⟨1, 1⟩) nullSrc 0 ⟨0⟩).2
    (by intro h; have h2 := h.2; norm_num at h2)).1

/-- C9: Mutation bounds.  The stochastic mutation source, whatever the finite
prefix of Gaussian draws, never returns a negative result (negative draws are
rejected and resampled), and the null source returns the value unchanged. -/
theorem mutation_bounds (value stdev : ℚ) (_hv : 0 ≤ value) (_hs : 0 ≤ stdev) :
    (∀ samples v, RandomMutationNumberSource.mutate value stdev samples = some v → 0 ≤ v) ∧
    NullMutationNumberSource.mutate value stdev = value := by
  refine ⟨fun samples v h => ?_, rfl⟩
  have hp := List.find?_some h
  simpa using hp

/-- Witness for C9 at `value = 1`, `stdev = 0`, samples `[-1, 2]`. -/
theorem mutation_bounds_witness :
    (0:ℚ) ≤ 2 ∧ NullMutationNumberSource.mutate 1 0 = 1 :=
  ⟨(mutation_bounds 1 0 (by norm_num) le_rfl).1 [-1, 2] 2 (by decide),
    (mutation_bounds 1 0 (by norm_num) le_rfl).2⟩

/-- C10: Frame property of `Cell::step`.  Stepping a cell never changes its
own heritable `Params` or its `Constants`; mutation is applied only to the
offspring clone. -/
theorem cell_step_frame (c : Cell) (src : MutationNumberSource) (k : ℕ)
    (environment : CellEnvironment) :
    (c.step src k environment).cell.params = c.params ∧
    (c.step src k environment).cell.constants = c.constants := ⟨rfl, rfl⟩

/-- A parent whose reproduction threshold (0) is below the cost of creating a
child (5): the gate passes with a budgeted reproduction amount of 0. -/
def cellC5cx : Cell := ⟨⟨5, 0, 0, 0, 0, 0, 0, 0, 0, 0⟩, ⟨0, 0, 0, 0⟩, ⟨10, 1⟩⟩

/-- Counterexample to C5 as stated: with create-child-energy 5 and a budgeted
reproduction amount of 0, the offspring's energy is the clipped 0, not the
claimed difference −5 (`Sub` for `F32Positive` clips at zero). -/
theorem cell_reproduction_energy_counterexample :
    ((cellC5cx.step nullSrc 0 ⟨0⟩).child.map fun ch => ch.state.energy) = some 0 ∧
    cellC5cx.budget_including_reproduction.2.reproduction -
      cellC5cx.constants.create_child_energy = -5 ∧
    ((cellC5cx.step nullSrc 0 ⟨0⟩).child.map fun ch => ch.state.energy) ≠
      some (cellC5cx.budget_including_reproduction.2.reproduction -
        cellC5cx.constants.create_child_energy) := by
  refine ⟨?_, ?_, ?_⟩ <;>
    norm_num [cellC5cx, Cell.step, Cell.budget_and_maybe_reproduce,
      Cell.budget_including_reproduction, Cell.budget_excluding_reproduction, budget,
      Cell.can_reproduce, Cell.reproduce, Cell.mutate, Cell.eat, Cell.digest,
      Cell.entropy, Cell.heal, Cell.expend_energy, F32Positive.sub, F32Positive.clipped,
      F32ZeroToOne.clipped, F32ZeroToOnePerF32Positive.mul, nullSrc,
      NullMutationNumberSource.mutate, List.getD_cons_zero, List.getD_cons_succ]

/-- The C5 instance: create-child-energy 1.5, reproduction energy threshold 4,
food threshold 0, parent energy 10. -/
def cellC5inst : Cell := ⟨⟨3/2, 0, 0, 0, 0, 0, 0, 0, 0, 0⟩, ⟨0, 0, 4, 0⟩, ⟨10, 1⟩⟩

/-- C5 (amended): when a cell commits to reproduction, the offspring has
health exactly 1, energy equal to the budgeted reproduction amount minus the
cost of creating a child **clipped at zero** (`Sub` for `F32Positive`
saturates), heritable params each independently perturbed by the mutation
source with that parameter's configured standard deviation, and the parent's
constants; and in the concrete instance (create-child-energy 1.5, threshold
4, food threshold 0, parent energy 10) the offspring energy is 2.5 and the
parent ends the step with energy 6. -/
theorem cell_reproduction_arithmetic :
    (∀ (c : Cell) (src : MutationNumberSource) (k : ℕ) (environment : CellEnvironment),
      c.can_reproduce c.budget_including_reproduction.2.reproduction environment = true →
      ∃ ch, (c.step src k environment).child = some ch ∧
        ch.state.health = 1 ∧
        ch.state.energy = max (c.budget_including_reproduction.2.reproduction -
          c.constants.create_child_energy) 0 ∧
        ch.params.attempted_eating_energy =
          src k c.params.attempted_eating_energy
            c.constants.attempted_eating_energy_mutation_stdev ∧
        ch.params.attempted_healing_energy =
          src (k + 1) c.params.attempted_healing_energy
            c.constants.attempted_healing_energy_mutation_stdev ∧
        ch.params.child_threshold_energy =
          src (k + 2) c.params.child_threshold_energy
            c.constants.child_threshold_energy_mutation_stdev ∧
        ch.params.child_threshold_food =
          src (k + 3) c.params.child_threshold_food
            c.constants.child_threshold_food_mutation_stdev ∧
        ch.constants = c.constants) ∧
    ((cellC5inst.step nullSrc 0 ⟨0⟩).child.map fun ch => ch.state.energy) = some (5/2) ∧
    ((cellC5inst.step nullSrc 0 ⟨0⟩).child.map fun ch => ch.state.health) = some 1 ∧
    (cellC5inst.step nullSrc 0 ⟨0⟩).cell.state.energy = 6 := by
  refine ⟨fun c src k environment hb => ?_, ?_, ?_, ?_⟩
  · have hchild : (c.step src k environment).child =
        (c.budget_and_maybe_reproduce src k environment).2.2.1 := rfl
    rw [hchild, bamr_of_can_reproduce c src k environment hb]
    exact ⟨c.reproduce c.budget_including_reproduction.2.reproduction src k, rfl,
      rfl, rfl, rfl, rfl, rfl, rfl, rfl⟩
  all_goals
    norm_num [cellC5inst, Cell.step, Cell.budget_and_maybe_reproduce,
      Cell.budget_including_reproduction, Cell.budget_excluding_reproduction, budget,
      Cell.can_reproduce, Cell.reproduce, Cell.mutate, Cell.eat, Cell.digest,
      Cell.entropy, Cell.heal, Cell.expend_energy, F32Positive.sub, F32Positive.clipped,
      F32ZeroToOne.clipped, F32ZeroToOnePerF32Positive.mul, nullSrc,
      NullMutationNumberSource.mutate, List.getD_cons_zero, List.getD_cons_succ]

/-- Witness for C5: the gate hypothesis holds for the concrete instance cell,
and its offspring has health 1. -/
theorem cell_reproduction_arithmetic_witness :
    ((cellC5inst.step nullSrc 0 ⟨0⟩).child.map fun ch => ch.state.health) = some 1 := by
  obtain ⟨ch, hch, hh, -⟩ := cell_reproduction_arithmetic.1 cellC5inst nullSrc 0 ⟨0⟩
    (by norm_num [cellC5inst, Cell.can_reproduce, Cell.budget_including_reproduction,
      budget, List.getD_cons_zero, List.getD_cons_succ])
  rw [hch]
  simp [hh]

/-- `F32ZeroToOne.clipped` is non-negative. -/
theorem clipped01_nonneg (x : ℚ) : 0 ≤ F32ZeroToOne.clipped x :=
  le_min (le_max_right x 0) zero_le_one

/-- `F32ZeroToOne.clipped` is at most one. -/
theorem clipped01_le_one (x : ℚ) : F32ZeroToOne.clipped x ≤ 1 := min_le_right _ 1

/-- Subtracting a clipped non-negative amount from a value ≤ 1 equals
subtracting the raw amount, after the outer clip. -/
theorem clipped_sub_clipped (h p : ℚ) (h1 : h ≤ 1) (hp : 0 ≤ p) :
    F32ZeroToOne.clipped (h - F32ZeroToOne.clipped p) = F32ZeroToOne.clipped (h - p) := by
  unfold F32ZeroToOne.clipped
  rcases le_or_lt p 1 with hple | hpgt
  · rw [max_eq_left hp, min_eq_left hple]
  · rw [max_eq_left hp, min_eq_right hpgt.le]
    rw [max_eq_right (by linarith : h - 1 ≤ 0), max_eq_right (by linarith : h - p ≤ 0)]

/-- Adding a clipped non-negative amount to a value ≥ 0 equals adding the raw
amount, after the outer clip. -/
theorem clipped_add_clipped (h p : ℚ) (h0 : 0 ≤ h) (hp : 0 ≤ p) :
    F32ZeroToOne.clipped (h + F32ZeroToOne.clipped p) = F32ZeroToOne.clipped (h + p) := by
  unfold F32ZeroToOne.clipped
  rcases le_or_lt p 1 with hple | hpgt
  · rw [max_eq_left hp, min_eq_left hple]
  · rw [max_eq_left hp, min_eq_right hpgt.le]
    rw [max_eq_left (by linarith : (0:ℚ) ≤ h + 1), max_eq_left (by linarith : (0:ℚ) ≤ h + p),
      min_eq_right (by linarith : (1:ℚ) ≤ h + 1), min_eq_right (by linarith : (1:ℚ) ≤ h + p)]

/-- All four heritable params are non-negative (enforced in the Rust code by
the checked `F32Positive` constructors). -/
def CellParams.Nonneg (p : CellParams) : Prop :=
  0 ≤ p.attempted_eating_energy ∧ 0 ≤ p.attempted_healing_energy ∧
    0 ≤ p.child_threshold_energy ∧ 0 ≤ p.child_threshold_food

/-- All constants are non-negative (enforced in the Rust code by the checked
constructors of the bounded numeric wrappers). -/
def CellConstants.Nonneg (k : CellConstants) : Prop :=
  0 ≤ k.create_child_energy ∧ 0 ≤ k.energy_yield_from_digestion ∧
    0 ≤ k.food_yield_from_eating ∧ 0 ≤ k.health_increase_per_healing_energy ∧
    0 ≤ k.health_reduction_from_entropy ∧ 0 ≤ k.health_reduction_per_energy_expended ∧
    0 ≤ k.attempted_eating_energy_mutation_stdev ∧
    0 ≤ k.attempted_healing_energy_mutation_stdev ∧
    0 ≤ k.child_threshold_energy_mutation_stdev ∧
    0 ≤ k.child_threshold_food_mutation_stdev

/-- The total granted by `budget` is non-negative. -/
theorem budget_fst_nonneg (available : ℚ) (desired : List ℚ) (ha : 0 ≤ available)
    (hd : ∀ d ∈ desired, 0 ≤ d) : 0 ≤ (budget available desired).1 := by
  unfold budget
  dsimp only
  split
  · exact ha
  · exact List.sum_nonneg hd

/-- Every amount granted by `budget` is non-negative. -/
theorem budget_snd_nonneg (available : ℚ) (desired : List ℚ) (ha : 0 ≤ available)
    (hd : ∀ d ∈ desired, 0 ≤ d) : ∀ g ∈ (budget available desired).2, 0 ≤ g := by
  unfold budget
  dsimp only
  split
  · intro g hg
    simp only [List.mem_map] at hg
    obtain ⟨d, hdm, rfl⟩ := hg
    exact mul_nonneg (hd d hdm) (div_nonneg ha (List.sum_nonneg hd))
  · exact hd

/-- `getD` with default 0 of a list of non-negative values is non-negative. -/
theorem getD_zero_nonneg (l : List ℚ) (h : ∀ x ∈ l, 0 ≤ x) :
    ∀ i, 0 ≤ l.getD i 0 := by
  induction l with
  | nil => intro i; simp [List.getD]
  | cons a t ih =>
    intro i
    cases i with
    | zero => simpa using h a (by simp)
    | succ j => simpa using ih (fun x hx => h x (by simp [hx])) j

/-- The committed budget of `budget_and_maybe_reproduce` is non-negative in
the total and in each component. -/
theorem bamr_nonneg (c : Cell) (src : MutationNumberSource) (k : ℕ)
    (environment : CellEnvironment) (he : 0 ≤ c.state.energy) (hp : c.params.Nonneg) :
    0 ≤ (c.budget_and_maybe_reproduce src k environment).1 ∧
    0 ≤ (c.budget_and_maybe_reproduce src k environment).2.1.reproduction ∧
    0 ≤ (c.budget_and_maybe_reproduce src k environment).2.1.eating ∧
    0 ≤ (c.budget_and_maybe_reproduce src k environment).2.1.healing := by
  obtain ⟨hp1, hp2, hp3, hp4⟩ := hp
  have hd3 : ∀ d ∈ [c.params.child_threshold_energy, c.params.attempted_eating_energy,
      c.params.attempted_healing_energy], 0 ≤ d := by
    intro d hdm
    simp only [List.mem_cons, List.not_mem_nil, or_false] at hdm
    rcases hdm with rfl | rfl | rfl <;> assumption
  have hd2 : ∀ d ∈ [c.params.attempted_eating_energy,
      c.params.attempted_healing_energy], 0 ≤ d := by
    intro d hdm
    simp only [List.mem_cons, List.not_mem_nil, or_false] at hdm
    rcases hdm with rfl | rfl <;> assumption
  cases hb : c.can_reproduce c.budget_including_reproduction.2.reproduction environment with
  | true =>
    rw [bamr_of_can_reproduce c src k environment hb]
    refine ⟨budget_fst_nonneg _ _ he hd3, ?_, ?_, ?_⟩ <;>
      exact getD_zero_nonneg _ (budget_snd_nonneg _ _ he hd3) _
  | false =>
    rw [bamr_of_not_can_reproduce c src k environment hb]
    exact ⟨budget_fst_nonneg _ _ he hd2, le_refl 0,
      getD_zero_nonneg _ (budget_snd_nonneg _ _ he hd2) 0,
      getD_zero_nonneg _ (budget_snd_nonneg _ _ he hd2) 1⟩

/-- A cell whose only active constant is entropy 1/4: zero eating/healing
params and thresholds (1, 1) that always fail the reproduction food gate. -/
def entropyCell (e : ℚ) : Cell := ⟨⟨0, 0, 0, 0, 1/4, 0, 0, 0, 0, 0⟩, ⟨0, 0, 1, 1⟩, ⟨e, 1⟩⟩

/-- C8: Step expenditure and decay.  In every `Cell::step`, energy becomes the
old energy minus the total committed budget clipped at 0 plus the digestion
yield, and health undergoes, in order: the clipped loss of (total budget ×
health-loss-per-energy-expended), the unconditional clipped entropy loss, and
the clipped gain of (budgeted healing × health-increase-per-healing-energy).
In particular a cell with health 1, entropy 1/4 and no other effects has
health 3/4 after one tick at any energy level. -/
theorem cell_step_expenditure_and_decay :
    (∀ (c : Cell) (src : MutationNumberSource) (k : ℕ) (environment : CellEnvironment),
      0 ≤ c.state.energy → c.state.health ≤ 1 → 0 ≤ c.state.health → c.params.Nonneg →
      0 ≤ c.constants.health_reduction_per_energy_expended →
      0 ≤ c.constants.health_increase_per_healing_energy →
      (c.step src k environment).cell.state.energy =
        max (c.state.energy - (c.budget_and_maybe_reproduce src k environment).1) 0 +
          (c.step src k environment).food_eaten * c.constants.energy_yield_from_digestion ∧
      (c.step src k environment).cell.state.health =
        F32ZeroToOne.clipped
          (F32ZeroToOne.clipped
            (F32ZeroToOne.clipped (c.state.health -
              (c.budget_and_maybe_reproduce src k environment).1 *
                c.constants.health_reduction_per_energy_expended) -
              c.constants.health_reduction_from_entropy) +
            (c.budget_and_maybe_reproduce src k environment).2.1.healing *
              c.constants.health_increase_per_healing_energy)) ∧
    (∀ e : ℚ, 0 ≤ e →
      ((entropyCell e).step nullSrc 0 ⟨0⟩).cell.state.health = 3/4) := by
  constructor
  · intro c src k environment he hh1 hh0 hp hrate hheal
    obtain ⟨htot, -, -, hhealing⟩ := bamr_nonneg c src k environment he hp
    refine ⟨rfl, ?_⟩
    have hstep : (c.step src k environment).cell.state.health =
        F32ZeroToOne.clipped
          (F32ZeroToOne.clipped
            (F32ZeroToOne.clipped (c.state.health -
              F32ZeroToOnePerF32Positive.mul
                c.constants.health_reduction_per_energy_expended
                (c.budget_and_maybe_reproduce src k environment).1) -
              c.constants.health_reduction_from_entropy) +
            F32ZeroToOnePerF32Positive.mul
              c.constants.health_increase_per_healing_energy
              (c.budget_and_maybe_reproduce src k environment).2.1.healing) := rfl
    rw [hstep]
    unfold F32ZeroToOnePerF32Positive.mul
    rw [clipped_sub_clipped _ _ hh1 (mul_nonneg hrate htot),
      clipped_add_clipped _ _ (clipped01_nonneg _) (mul_nonneg hheal hhealing),
      mul_comm c.constants.health_reduction_per_energy_expended,
      mul_comm c.constants.health_increase_per_healing_energy]
  · intro e he
    have hb : (entropyCell e).can_reproduce
        (entropyCell e).budget_including_reproduction.2.reproduction ⟨0⟩ = false := by
      norm_num [Cell.can_reproduce, entropyCell]
    have hstep : ((entropyCell e).step nullSrc 0 ⟨0⟩).cell.state.health =
        F32ZeroToOne.clipped
          (F32ZeroToOne.clipped
            (F32ZeroToOne.clipped ((entropyCell e).state.health -
              F32ZeroToOnePerF32Positive.mul
                (entropyCell e).constants.health_reduction_per_energy_expended
                ((entropyCell e).budget_and_maybe_reproduce nullSrc 0 ⟨0⟩).1) -
              (entropyCell e).constants.health_reduction_from_entropy) +
            F32ZeroToOnePerF32Positive.mul
              (entropyCell e).constants.health_increase_per_healing_energy
              ((entropyCell e).budget_and_maybe_reproduce nullSrc 0 ⟨0⟩).2.1.healing) := rfl
    rw [hstep, bamr_of_not_can_reproduce _ _ _ _ hb]
    have hbud : (entropyCell e).budget_excluding_reproduction = (0, ⟨0, 0, 0⟩) := by
      unfold Cell.budget_excluding_reproduction budget entropyCell
      norm_num [not_lt.mpr he, List.getD_cons_zero, List.getD_cons_succ]
    rw [hbud]
    norm_num [entropyCell, F32ZeroToOnePerF32Positive.mul, F32ZeroToOne.clipped]

/-- Witness for C8: the general clause at a concrete all-zero cell, and the
entropy instance at energy 0. -/
theorem cell_step_expenditure_and_decay_witness :
    ((entropyCell 0).step nullSrc 0 ⟨0⟩).cell.state.health = 3/4 :=
  cell_step_expenditure_and_decay.2 0 le_rfl

/-- A cell that attempts to eat `eat` units with food yield 1, never
reproducing (both thresholds 1000 are unreachable). -/
def eaterCell (eat : ℚ) : Cell := ⟨⟨0, 0, 1, 0, 0, 0, 0, 0, 0, 0⟩, ⟨eat, 0, 1000, 1000⟩, ⟨10, 1⟩⟩

/-- Two eater cells (eating energies 2 and 3) over a pool of 10. -/
def worldC6a : World := ⟨[eaterCell 2, eaterCell 3], 10, []⟩

/-- Two eater cells (eating energies 2 and 3) over a pool of 4. -/
def worldC6b : World := ⟨[eaterCell 2, eaterCell 3], 4, []⟩

set_option maxHeartbeats 2000000 in
/-- C6: Eating cap and digestion.  The food a stepped cell consumes is
min(budgeted eating energy × food-yield-from-eating, food per agent); its
energy afterwards is the post-expenditure energy plus (food consumed ×
energy-yield-from-digestion); and `World::step` subtracts every cell's
consumed food from the shared pool: with eating energies 2 and 3, food yield
1 and a pool of 10 the pool ends at 5, and with a pool of 4 each cell is
capped at its per-agent share of 2, ending at 0 (total consumed 4 ≤ 4). -/
theorem cell_eating_cap_and_digestion :
    (∀ (c : Cell) (src : MutationNumberSource) (k : ℕ) (environment : CellEnvironment),
      (c.step src k environment).food_eaten =
        min ((c.budget_and_maybe_reproduce src k environment).2.1.eating *
          c.constants.food_yield_from_eating) environment.food_per_cell ∧
      (c.step src k environment).cell.state.energy =
        (c.expend_energy (c.budget_and_maybe_reproduce src k environment).1).state.energy +
          (c.step src k environment).food_eaten * c.constants.energy_yield_from_digestion) ∧
    ((World.step worldC6a nullSrc 0).map fun r => r.world.food) = some 5 ∧
    ((World.step worldC6b nullSrc 0).map fun r => r.world.food) = some 0 := by
  refine ⟨fun c src k environment => ⟨rfl, rfl⟩, ?_, ?_⟩ <;>
    norm_num [worldC6a, worldC6b, eaterCell, World.step, World.step_food_sources,
      World.step_cells_go, World.remove_cells, Cell.step, Cell.budget_and_maybe_reproduce,
      Cell.budget_including_reproduction, Cell.budget_excluding_reproduction, budget,
      Cell.can_reproduce, Cell.reproduce, Cell.mutate, Cell.eat, Cell.digest,
      Cell.entropy, Cell.heal, Cell.expend_energy, Cell.is_alive, F32Positive.sub,
      F32Positive.clipped, F32ZeroToOne.clipped, F32ZeroToOnePerF32Positive.mul, nullSrc,
      NullMutationNumberSource.mutate, List.getD_cons_zero, List.getD_cons_succ]

/-- The per-cell invariant: the claimed state bounds together with the
non-negativity the Rust checked constructors enforce on params and constants. -/
def Cell.Inv (c : Cell) : Prop :=
  0 ≤ c.state.energy ∧ 0 ≤ c.state.health ∧ c.state.health ≤ 1 ∧
    c.params.Nonneg ∧ c.constants.Nonneg

/-- A mutation source honouring the trait contract: it returns a non-negative
value on non-negative inputs. -/
def MutationNumberSource.Nonneg (src : MutationNumberSource) : Prop :=
  ∀ (i : ℕ) (v s : ℚ), 0 ≤ v → 0 ≤ s → 0 ≤ src i v s

/-- `Cell::step` preserves the cell invariant, establishes it for the
offspring, and consumes a non-negative amount of food. -/
theorem cell_step_inv (c : Cell) (src : MutationNumberSource) (k : ℕ)
    (environment : CellEnvironment) (hc : c.Inv) (hsrc : src.Nonneg)
    (henv : 0 ≤ environment.food_per_cell) :
    (c.step src k environment).cell.Inv ∧
    (∀ ch, (c.step src k environment).child = some ch → ch.Inv) ∧
    0 ≤ (c.step src k environment).food_eaten := by
  obtain ⟨he, hh0, hh1, hp, hk⟩ := hc
  obtain ⟨htot, hrep, heat, hheal⟩ := bamr_nonneg c src k environment he hp
  have hfood : 0 ≤ (c.step src k environment).food_eaten :=
    le_min (mul_nonneg heat hk.2.2.1) henv
  refine ⟨⟨?_, ?_, ?_, hp, hk⟩, ?_, hfood⟩
  · show 0 ≤ F32Positive.sub c.state.energy (c.budget_and_maybe_reproduce src k environment).1 +
      (c.step src k environment).food_eaten * c.constants.energy_yield_from_digestion
    exact add_nonneg (le_max_right _ 0) (mul_nonneg hfood hk.2.1)
  · exact clipped01_nonneg _
  · exact clipped01_le_one _
  · intro ch hch
    have hchild : (c.step src k environment).child =
        (c.budget_and_maybe_reproduce src k environment).2.2.1 := rfl
    cases hb : c.can_reproduce c.budget_including_reproduction.2.reproduction environment with
    | false =>
      rw [hchild, bamr_of_not_can_reproduce c src k environment hb] at hch
      exact absurd hch (Option.noConfusion)
    | true =>
      rw [hchild, bamr_of_can_reproduce c src k environment hb] at hch
      obtain rfl : c.reproduce c.budget_including_reproduction.2.reproduction src k = ch :=
        Option.some_injective _ hch
      obtain ⟨hp1, hp2, hp3, hp4⟩ := hp
      exact ⟨le_max_right _ 0, zero_le_one, le_refl 1,
        ⟨hsrc _ _ _ hp1 hk.2.2.2.2.2.2.1,
          hsrc _ _ _ hp2 hk.2.2.2.2.2.2.2.1,
          hsrc _ _ _ hp3 hk.2.2.2.2.2.2.2.2.1,
          hsrc _ _ _ hp4 hk.2.2.2.2.2.2.2.2.2⟩, hk⟩

/-- The food-source invariant: every stored amount is non-negative. -/
def FoodSource.Nonneg : FoodSource → Prop
  | .constantSource f => 0 ≤ f
  | .linearlyGrowing n i => 0 ≤ n ∧ 0 ≤ i

/-- Polling a non-negative food source yields a non-negative amount and a
non-negative successor state. -/
theorem food_this_step_nonneg (fs : FoodSource) (h : fs.Nonneg) :
    0 ≤ fs.food_this_step.1 ∧ fs.food_this_step.2.Nonneg := by
  cases fs with
  | constantSource f => exact ⟨h, h⟩
  | linearlyGrowing n i => exact ⟨h.1, add_nonneg h.1 h.2, h.2⟩

/-- The world invariant: cell invariants, a non-negative pool, and
non-negative food sources. -/
def World.Inv (w : World) : Prop :=
  (∀ c ∈ w.cells, c.Inv) ∧ 0 ≤ w.food ∧ ∀ fs ∈ w.food_sources, fs.Nonneg

/-- Polling all food sources preserves the world invariant and the cells. -/
theorem step_food_sources_inv (w : World) (hw : w.Inv) :
    w.step_food_sources.Inv ∧ w.step_food_sources.cells = w.cells := by
  obtain ⟨hc, hf, hs⟩ := hw
  refine ⟨⟨hc, ?_⟩, rfl⟩
  have aux : ∀ (sources : List FoodSource) (acc : ℚ × List FoodSource),
      0 ≤ acc.1 → (∀ fs ∈ acc.2, fs.Nonneg) → (∀ fs ∈ sources, fs.Nonneg) →
      0 ≤ (sources.foldl
        (fun (acc : ℚ × List FoodSource) fs =>
          let r := fs.food_this_step
          (acc.1 + r.1, acc.2 ++ [r.2])) acc).1 ∧
      ∀ fs ∈ (sources.foldl
        (fun (acc : ℚ × List FoodSource) fs =>
          let r := fs.food_this_step
          (acc.1 + r.1, acc.2 ++ [r.2])) acc).2, fs.Nonneg := by
    intro sources
    induction sources with
    | nil => intro acc h1 h2 _; exact ⟨h1, h2⟩
    | cons fs rest ih =>
      intro acc h1 h2 h3
      obtain ⟨hy, hn⟩ := food_this_step_nonneg fs (h3 fs (by simp))
      refine ih _ (add_nonneg h1 hy) ?_ (fun g hg => h3 g (by simp [hg]))
      intro g hg
      rcases List.mem_append.mp hg with hg | hg
      · exact h2 g hg
      · rw [List.mem_singleton.mp hg]
        exact hn
  have h := aux w.food_sources (w.food, []) hf (by simp) hs
  exact ⟨h.1, h.2⟩

/-- The cell loop preserves the invariant of every stepped cell and of every
collected newborn, and leaves a non-negative food pool. -/
theorem step_cells_go_inv (src : MutationNumberSource) (environment : CellEnvironment)
    (hsrc : src.Nonneg) (henv : 0 ≤ environment.food_per_cell) :
    ∀ (cells : List Cell) (index : ℕ) (food : ℚ) (k : ℕ),
      (∀ c ∈ cells, c.Inv) → 0 ≤ food →
      (∀ c ∈ (World.step_cells_go src environment cells index food k).1, c.Inv) ∧
      0 ≤ (World.step_cells_go src environment cells index food k).2.1 ∧
      (∀ c ∈ (World.step_cells_go src environment cells index food k).2.2.2.1, c.Inv) := by
  intro cells
  induction cells with
  | nil =>
    intro index food k _ hf
    exact ⟨by simp [World.step_cells_go], hf, by simp [World.step_cells_go]⟩
  | cons c rest ih =>
    intro index food k hc hf
    obtain ⟨hcell, hchild, hfood⟩ :=
      cell_step_inv c src k environment (hc c (by simp)) hsrc henv
    have hf1 : 0 ≤ F32Positive.sub food (c.step src k environment).food_eaten :=
      le_max_right _ 0
    obtain ⟨ih1, ih2, ih3⟩ := ih (index + 1)
      (F32Positive.sub food (c.step src k environment).food_eaten)
      (c.step src k environment).counter
      (fun x hx => hc x (by simp [hx])) hf1
    refine ⟨?_, ih2, ?_⟩
    · intro x hx
      rcases List.mem_cons.mp hx with rfl | hx
      · exact hcell
      · exact ih1 x hx
    · show ∀ x ∈ (match (c.step src k environment).child with
        | some child => child :: (World.step_cells_go src environment rest (index + 1)
            (F32Positive.sub food (c.step src k environment).food_eaten)
            (c.step src k environment).counter).2.2.2.1
        | none => (World.step_cells_go src environment rest (index + 1)
            (F32Positive.sub food (c.step src k environment).food_eaten)
            (c.step src k environment).counter).2.2.2.1), x.Inv
      cases hch : (c.step src k environment).child with
      | none => exact ih3
      | some ch =>
        intro x hx
        rcases List.mem_cons.mp hx with rfl | hx
        · exact hchild x hch
        · exact ih3 x hx

/-- `swap_remove` only rearranges and drops elements. -/
theorem swap_remove_subset (l : List Cell) (i : ℕ) : swap_remove l i ⊆ l := by
  unfold swap_remove
  cases hl : l.getLast? with
  | none => exact fun x hx => hx
  | some a =>
    intro x hx
    rcases List.mem_or_eq_of_mem_set (List.dropLast_subset _ hx) with h | rfl
    · exact h
    · exact List.mem_of_mem_getLast? hl

/-- `remove_cells` only removes elements. -/
theorem remove_cells_subset (idxs : List ℕ) (l : List Cell) :
    World.remove_cells l idxs ⊆ l := by
  unfold World.remove_cells
  generalize idxs.reverse = js
  induction js generalizing l with
  | nil => exact fun x hx => hx
  | cons j js ih => exact fun x hx => swap_remove_subset l j (ih (swap_remove l j) hx)

/-- One `World::step` tick preserves the world invariant. -/
theorem world_step_inv (w : World) (src : MutationNumberSource) (k : ℕ)
    (hw : w.Inv) (hsrc : src.Nonneg) :
    ∀ r, w.step src k = some r → r.world.Inv := by
  intro r hr
  obtain ⟨hw1, hcells⟩ := step_food_sources_inv w hw
  obtain ⟨hc1, hf1, hs1⟩ := hw1
  unfold World.step at hr
  by_cases hlen : w.step_food_sources.cells.length = 0
  · rw [if_pos hlen] at hr
    by_cases hfz : w.step_food_sources.food = 0
    · rw [if_pos hfz] at hr
      exact absurd hr Option.noConfusion
    · rw [if_neg hfz] at hr
      obtain rfl : _ = r := Option.some_injective _ hr
      exact ⟨hc1, hf1, hs1⟩
  · rw [if_neg hlen] at hr
    obtain rfl : _ = r := Option.some_injective _ hr
    have henv : 0 ≤ w.step_food_sources.food / (w.step_food_sources.cells.length : ℚ) :=
      div_nonneg hf1 (by positivity)
    obtain ⟨hstepped, hfood, hnews⟩ := step_cells_go_inv src
      ⟨w.step_food_sources.food / (w.step_food_sources.cells.length : ℚ)⟩ hsrc henv
      w.step_food_sources.cells 0 w.step_food_sources.food k hc1 hf1
    refine ⟨?_, hfood, hs1⟩
    intro c hc
    have hc2 := remove_cells_subset _ _ hc
    rcases List.mem_append.mp hc2 with h | h
    · exact hstepped c h
    · exact hnews c h

/-- Iterated ticks preserve the world invariant. -/
theorem stepN_inv (src : MutationNumberSource) (hsrc : src.Nonneg) :
    ∀ (n : ℕ) (w : World) (k : ℕ) (w' : World) (k' : ℕ),
      w.Inv → World.stepN src n w k = some (w', k') → w'.Inv := by
  intro n
  induction n with
  | zero =>
    intro w k w' k' hw h
    obtain ⟨rfl, rfl⟩ : w = w' ∧ k = k' := by
      have := Option.some_injective _ h
      exact ⟨congrArg Prod.fst this, congrArg Prod.snd this⟩
    exact hw
  | succ n ih =>
    intro w k w' k' hw h
    unfold World.stepN at h
    cases hstep : w.step src k with
    | none => rw [hstep] at h; exact absurd h Option.noConfusion
    | some r =>
      rw [hstep] at h
      exact ih r.world r.counter w' k' (world_step_inv w src k hw hsrc r hstep) h

/-- C3: Invariant preservation.  For every initial world satisfying the
invariants (cell energies ≥ 0, health in [0,1], non-negative food pool,
together with the non-negativity the checked constructors enforce on params,
constants and food sources) and every mutation source honouring the trait
contract, after any number of ticks every cell's energy is ≥ 0, every cell's
health is in [0,1], and the food pool is ≥ 0. -/
theorem world_invariants_preserved (w : World) (src : MutationNumberSource) (n k : ℕ)
    (w' : World) (k' : ℕ) (hw : w.Inv) (hsrc : src.Nonneg)
    (h : World.stepN src n w k = some (w', k')) :
    (∀ c ∈ w'.cells, 0 ≤ c.state.energy ∧ 0 ≤ c.state.health ∧ c.state.health ≤ 1) ∧
      0 ≤ w'.food := by
  obtain ⟨hc, hf, -⟩ := stepN_inv src hsrc n w k w' k' hw h
  exact ⟨fun c hcm => ⟨(hc c hcm).1, (hc c hcm).2.1, (hc c hcm).2.2.1⟩, hf⟩

/-- A one-cell world with a constant food source, for the C3 witness. -/
def worldC3 : World := ⟨[eaterCell 2], 10, [FoodSource.constantSource 1]⟩

set_option maxHeartbeats 2000000 in
/-- Witness for C3: one tick of `worldC3` yields a world whose pool (9) is
non-negative. -/
theorem world_invariants_preserved_witness :
    (0:ℚ) ≤ (⟨[⟨⟨0, 0, 1, 0, 0, 0, 0, 0, 0, 0⟩, ⟨2, 0, 1000, 1000⟩, ⟨8, 1⟩⟩], 9,
      [FoodSource.constantSource 1]⟩ : World).food :=
  (world_invariants_preserved worldC3 nullSrc 1 0
    ⟨[⟨⟨0, 0, 1, 0, 0, 0, 0, 0, 0, 0⟩, ⟨2, 0, 1000, 1000⟩, ⟨8, 1⟩⟩], 9,
      [FoodSource.constantSource 1]⟩ 0
    (by
      refine ⟨?_, by norm_num [worldC3], ?_⟩
      · intro c hcm
        rw [show c = eaterCell 2 by simpa [worldC3] using hcm]
        norm_num [Cell.Inv, CellParams.Nonneg, CellConstants.Nonneg, eaterCell]
      · intro fs hfs
        rw [show fs = FoodSource.constantSource 1 by simpa [worldC3] using hfs]
        norm_num [FoodSource.Nonneg])
    (fun i v s hv _ => hv)
    (by
      norm_num [worldC3, eaterCell, World.stepN, World.step, World.step_food_sources,
        FoodSource.food_this_step, World.step_cells_go, World.remove_cells, swap_remove,
        Cell.step, Cell.budget_and_maybe_reproduce, Cell.budget_including_reproduction,
        Cell.budget_excluding_reproduction, budget, Cell.can_reproduce, Cell.reproduce,
        Cell.mutate, Cell.eat, Cell.digest, Cell.entropy, Cell.heal, Cell.expend_energy,
        Cell.is_alive, F32Positive.sub, F32Positive.clipped, F32ZeroToOne.clipped,
        F32ZeroToOnePerF32Positive.mul, nullSrc, NullMutationNumberSource.mutate,
        List.getD_cons_zero, List.getD_cons_succ])).2

/-- The sequence of per-cell step results of one tick, in iteration order,
threading the mutation-source call counter — the loop of `World::step_cells`
restated cell by cell. -/
def stepCellSeq (src : MutationNumberSource) (environment : CellEnvironment) :
    List Cell → ℕ → List CellStepResult
  | [], _ => []
  | c :: rest, k =>
    let r := c.step src k environment
    r :: stepCellSeq src environment rest r.counter

/-- The indexes (from `index`) of the cells that are not alive, in ascending
order — the dead-index list `World::step_cells` records. -/
def deadIdxSpec : List Cell → ℕ → List ℕ
  | [], _ => []
  | c :: rest, index =>
    if c.is_alive then deadIdxSpec rest (index + 1)
    else index :: deadIdxSpec rest (index + 1)

/-- Keep the elements whose position (counted from `index`) is not listed in
`idxs` — the reference meaning of removing a set of positions. -/
def keepNotIdx : List Cell → ℕ → List ℕ → List Cell
  | [], _, _ => []
  | c :: rest, index, idxs =>
    if index ∈ idxs then keepNotIdx rest (index + 1) idxs
    else c :: keepNotIdx rest (index + 1) idxs

/-- `swap_remove` splits as the untouched prefix before the removed position
plus a permutation of the suffix after it. -/
theorem swap_remove_eq (l : List Cell) (j : ℕ) (hj : j < l.length) :
    ∃ t, swap_remove l j = l.take j ++ t ∧ t.Perm (l.drop (j + 1)) := by
  induction l generalizing j with
  | nil => simp at hj
  | cons c rest ih =>
    cases j with
    | zero =>
      cases rest with
      | nil =>
        refine ⟨[], ?_, by simp⟩
        unfold swap_remove
        simp
      | cons x xs =>
        have hne : (x :: xs : List Cell) ≠ [] := by simp
        refine ⟨(x :: xs).getLast hne :: (x :: xs).dropLast, ?_, ?_⟩
        · unfold swap_remove
          rw [List.getLast?_cons_cons, List.getLast?_eq_getLast _ hne]
          rfl
        · have hp := (List.perm_append_singleton ((x :: xs).getLast hne)
            (x :: xs).dropLast).symm
          rwa [List.dropLast_concat_getLast hne] at hp
    | succ j =>
      have hj' : j < rest.length := by simpa using hj
      cases rest with
      | nil => simp at hj'
      | cons x xs =>
        obtain ⟨t, ht, hperm⟩ := ih j hj'
        refine ⟨t, ?_, hperm⟩
        have hne : (x :: xs : List Cell) ≠ [] := by simp
        unfold swap_remove at ht ⊢
        rw [List.getLast?_cons_cons]
        rw [List.getLast?_eq_getLast _ hne] at ht ⊢
        replace ht : ((x :: xs).set j ((x :: xs).getLast hne)).dropLast =
            List.take j (x :: xs) ++ t := ht
        show ((c :: x :: xs).set (j + 1) ((x :: xs).getLast hne)).dropLast =
          List.take (j + 1) (c :: x :: xs) ++ t
        rw [List.set_cons_succ, List.dropLast_cons_of_ne_nil (by
          intro hset
          have := congrArg List.length hset
          simp at this)]
        show c :: ((x :: xs).set j _).dropLast = c :: ((x :: xs).take j ++ t)
        rw [ht]

/-- If every listed index lies below the start position, nothing is removed. -/
theorem keepNotIdx_all_lt (l : List Cell) (index : ℕ) (idxs : List ℕ)
    (h : ∀ x ∈ idxs, x < index) : keepNotIdx l index idxs = l := by
  induction l generalizing index with
  | nil => rfl
  | cons c rest ih =>
    unfold keepNotIdx
    rw [if_neg (fun hmem => absurd (h index hmem) (lt_irrefl index)),
      ih (index + 1) (fun x hx => Nat.lt_succ_of_lt (h x hx))]

/-- `keepNotIdx` only consults the membership of positions in range. -/
theorem keepNotIdx_congr (l : List Cell) (index : ℕ) (idxs idxs' : List ℕ)
    (h : ∀ p, index ≤ p → p < index + l.length → (p ∈ idxs ↔ p ∈ idxs')) :
    keepNotIdx l index idxs = keepNotIdx l index idxs' := by
  induction l generalizing index with
  | nil => rfl
  | cons c rest ih =>
    unfold keepNotIdx
    have hiff := h index le_rfl (by simp)
    have hih := ih (index + 1) (fun p hp1 hp2 => h p (by omega) (by simp; omega))
    by_cases hm : index ∈ idxs
    · rw [if_pos hm, if_pos (hiff.mp hm), hih]
    · rw [if_neg hm, if_neg (fun hm2 => hm (hiff.mpr hm2)), hih]

/-- `keepNotIdx` distributes over append, shifting the position counter. -/
theorem keepNotIdx_append (a b : List Cell) (index : ℕ) (idxs : List ℕ) :
    keepNotIdx (a ++ b) index idxs =
      keepNotIdx a index idxs ++ keepNotIdx b (index + a.length) idxs := by
  induction a generalizing index with
  | nil => simp [keepNotIdx]
  | cons c rest ih =>
    have harith : index + (c :: rest).length = index + 1 + rest.length := by
      simp
      omega
    have hl : keepNotIdx (c :: (rest ++ b)) index idxs =
        if index ∈ idxs then keepNotIdx (rest ++ b) (index + 1) idxs
        else c :: keepNotIdx (rest ++ b) (index + 1) idxs := rfl
    have hr : keepNotIdx (c :: rest) index idxs =
        if index ∈ idxs then keepNotIdx rest (index + 1) idxs
        else c :: keepNotIdx rest (index + 1) idxs := rfl
    show keepNotIdx (c :: (rest ++ b)) index idxs = _
    rw [hl, hr, ih (index + 1), harith]
    by_cases hm : index ∈ idxs
    · rw [if_pos hm, if_pos hm]
    · rw [if_neg hm, if_neg hm, List.cons_append]

/-- Every dead index is at least the start position and within range. -/
theorem deadIdxSpec_bounds (l : List Cell) (index : ℕ) :
    ∀ j ∈ deadIdxSpec l index, index ≤ j ∧ j < index + l.length := by
  induction l generalizing index with
  | nil => intro j hj; exact absurd hj (by simp [deadIdxSpec])
  | cons c rest ih =>
    intro j hj
    unfold deadIdxSpec at hj
    by_cases ha : c.is_alive
    · rw [if_pos ha] at hj
      obtain ⟨h1, h2⟩ := ih (index + 1) j hj
      constructor <;> [omega; (simp; omega)]
    · rw [if_neg ha] at hj
      rcases List.mem_cons.mp hj with rfl | hj
      · exact ⟨le_rfl, by simp⟩
      · obtain ⟨h1, h2⟩ := ih (index + 1) j hj
        constructor <;> [omega; (simp; omega)]

/-- The dead indexes are strictly ascending. -/
theorem deadIdxSpec_pairwise (l : List Cell) (index : ℕ) :
    (deadIdxSpec l index).Pairwise (· < ·) := by
  induction l generalizing index with
  | nil => exact List.Pairwise.nil
  | cons c rest ih =>
    unfold deadIdxSpec
    by_cases ha : c.is_alive
    · rw [if_pos ha]
      exact ih (index + 1)
    · rw [if_neg ha]
      exact List.Pairwise.cons
        (fun j hj => by have := (deadIdxSpec_bounds rest (index + 1) j hj).1; omega)
        (ih (index + 1))

/-- There are as many dead indexes as dead cells. -/
theorem deadIdxSpec_length (l : List Cell) (index : ℕ) :
    (deadIdxSpec l index).length = (l.filter fun c => !c.is_alive).length := by
  induction l generalizing index with
  | nil => rfl
  | cons c rest ih =>
    unfold deadIdxSpec
    cases ha : c.is_alive with
    | true => simp [ha, List.filter_cons, ih (index + 1)]
    | false => simp [ha, List.filter_cons, ih (index + 1)]

/-- Removing exactly the dead positions keeps exactly the live cells. -/
theorem keepNotIdx_deadIdxSpec (l : List Cell) (index : ℕ) :
    keepNotIdx l index (deadIdxSpec l index) = l.filter fun c => c.is_alive := by
  induction l generalizing index with
  | nil => rfl
  | cons c rest ih =>
    unfold deadIdxSpec keepNotIdx
    by_cases ha : c.is_alive
    · rw [if_pos ha, if_neg (fun hmem =>
        absurd (deadIdxSpec_bounds rest (index + 1) index hmem).1 (by omega))]
      rw [ih (index + 1), List.filter_cons, if_pos (by simpa using ha)]
    · rw [if_neg ha, if_pos (by simp)]
      rw [keepNotIdx_congr rest (index + 1) (index :: deadIdxSpec rest (index + 1))
        (deadIdxSpec rest (index + 1))
        (fun p hp1 hp2 => by
          constructor
          · intro hm
            rcases List.mem_cons.mp hm with rfl | hm
            · omega
            · exact hm
          · exact fun hm => List.mem_cons_of_mem _ hm)]
      rw [ih (index + 1), List.filter_cons, if_neg (by simpa using ha)]

/-- Swap-removing a strictly descending list of in-range positions is, up to
permutation, the same as keeping the cells at the unlisted positions. -/
theorem foldl_swap_remove_perm :
    ∀ (js : List ℕ) (l : List Cell),
      js.Pairwise (· > ·) → (∀ j ∈ js, j < l.length) →
      (js.foldl swap_remove l).Perm (keepNotIdx l 0 js) := by
  intro js
  induction js with
  | nil =>
    intro l _ _
    rw [keepNotIdx_all_lt l 0 [] (by simp)]
    exact List.Perm.refl l
  | cons j js ih =>
    intro l hpw hbound
    have hj : j < l.length := hbound j (by simp)
    have hjs_lt : ∀ x ∈ js, x < j := fun x hx => (List.pairwise_cons.mp hpw).1 x hx
    obtain ⟨t, ht, hperm⟩ := swap_remove_eq l j hj
    have htake : (l.take j).length = j := by
      rw [List.length_take]
      omega
    have hlen' : (swap_remove l j).length = l.length - 1 := by
      have := hperm.length_eq
      rw [List.length_drop] at this
      rw [ht, List.length_append, htake]
      omega
    show (js.foldl swap_remove (swap_remove l j)).Perm (keepNotIdx l 0 (j :: js))
    have ih' := ih (swap_remove l j) (List.pairwise_cons.mp hpw).2
      (fun x hx => by rw [hlen']; have := hjs_lt x hx; omega)
    refine ih'.trans ?_
    rw [ht, keepNotIdx_append,
      keepNotIdx_all_lt t (0 + (l.take j).length) js
        (fun x hx => by rw [htake]; simpa using hjs_lt x hx)]
    have hdecomp : keepNotIdx l 0 (j :: js) =
        keepNotIdx (l.take j) 0 (j :: js) ++ l.drop (j + 1) := by
      conv_lhs => rw [← List.take_append_drop j l]
      rw [keepNotIdx_append]
      congr 1
      rw [htake, Nat.zero_add, List.drop_eq_getElem_cons hj]
      unfold keepNotIdx
      rw [if_pos (by simp)]
      exact keepNotIdx_all_lt _ _ _ (fun x hx => by
        rcases List.mem_cons.mp hx with rfl | hx
        · omega
        · have := hjs_lt x hx; omega)
    rw [hdecomp,
      keepNotIdx_congr (l.take j) 0 (j :: js) js
        (fun p hp1 hp2 => by
          rw [htake] at hp2
          constructor
          · intro hm
            rcases List.mem_cons.mp hm with rfl | hm
            · omega
            · exact hm
          · exact fun hm => List.mem_cons_of_mem _ hm)]
    exact hperm.append_left _

/-- One step result per pre-tick cell. -/
theorem stepCellSeq_length (src : MutationNumberSource) (environment : CellEnvironment) :
    ∀ (cells : List Cell) (k : ℕ),
      (stepCellSeq src environment cells k).length = cells.length := by
  intro cells
  induction cells with
  | nil => intro k; rfl
  | cons c rest ih =>
    intro k
    show (stepCellSeq src environment rest (c.step src k environment).counter).length + 1 = _
    rw [ih]
    rfl

/-- The loop of `World::step_cells` computes, component by component, the
per-cell step results in iteration order: the stepped cells, the folded
(clipped) food subtraction, the children in order, and the ascending dead
indexes. -/
theorem step_cells_go_spec (src : MutationNumberSource) (environment : CellEnvironment) :
    ∀ (cells : List Cell) (index : ℕ) (food : ℚ) (k : ℕ),
      (World.step_cells_go src environment cells index food k).1 =
        (stepCellSeq src environment cells k).map (fun t => t.cell) ∧
      (World.step_cells_go src environment cells index food k).2.1 =
        (stepCellSeq src environment cells k).foldl
          (fun f t => F32Positive.sub f t.food_eaten) food ∧
      (World.step_cells_go src environment cells index food k).2.2.2.1 =
        (stepCellSeq src environment cells k).filterMap (fun t => t.child) ∧
      (World.step_cells_go src environment cells index food k).2.2.2.2 =
        deadIdxSpec ((stepCellSeq src environment cells k).map (fun t => t.cell)) index := by
  intro cells
  induction cells with
  | nil => intro index food k; exact ⟨rfl, rfl, rfl, rfl⟩
  | cons c rest ih =>
    intro index food k
    obtain ⟨ih1, ih2, ih3, ih4⟩ := ih (index + 1)
      (F32Positive.sub food (c.step src k environment).food_eaten)
      (c.step src k environment).counter
    refine ⟨?_, ?_, ?_, ?_⟩
    · show (c.step src k environment).cell ::
        (World.step_cells_go src environment rest (index + 1)
          (F32Positive.sub food (c.step src k environment).food_eaten)
          (c.step src k environment).counter).1 = _
      rw [ih1]
      rfl
    · show (World.step_cells_go src environment rest (index + 1)
          (F32Positive.sub food (c.step src k environment).food_eaten)
          (c.step src k environment).counter).2.1 = _
      rw [ih2]
      rfl
    · show (match (c.step src k environment).child with
        | some child => child ::
            (World.step_cells_go src environment rest (index + 1)
              (F32Positive.sub food (c.step src k environment).food_eaten)
              (c.step src k environment).counter).2.2.2.1
        | none =>
            (World.step_cells_go src environment rest (index + 1)
              (F32Positive.sub food (c.step src k environment).food_eaten)
              (c.step src k environment).counter).2.2.2.1) = _
      rw [ih3]
      show _ = ((c.step src k environment) ::
        stepCellSeq src environment rest (c.step src k environment).counter).filterMap
          (fun t => t.child)
      rw [List.filterMap_cons]
      cases (c.step src k environment).child <;> rfl
    · show (if (c.step src k environment).cell.is_alive then
          (World.step_cells_go src environment rest (index + 1)
            (F32Positive.sub food (c.step src k environment).food_eaten)
            (c.step src k environment).counter).2.2.2.2
        else index ::
          (World.step_cells_go src environment rest (index + 1)
            (F32Positive.sub food (c.step src k environment).food_eaten)
            (c.step src k environment).counter).2.2.2.2) = _
      rw [ih4]
      rfl

/-- C7: World tick structure.  For a non-empty population, `World::step`
succeeds and: it steps exactly the pre-tick cells once each in order (the
newborns are the children those steps return and do not feed back into this
tick, whose food-per-agent uses the pre-tick population count), the returned
counts are the number of children and the number of stepped cells whose
post-step health is not positive, the surviving population is — up to the
order scrambling of descending swap-removal — exactly the live stepped cells
followed by the newborns, and the pool is the clipped fold of the per-cell
food subtractions. -/
theorem world_tick_structure (w : World) (src : MutationNumberSource) (k : ℕ)
    (h : w.cells ≠ []) :
    ∃ r, World.step w src k = some r ∧
      r.num_added = ((stepCellSeq src
        ⟨w.step_food_sources.food / (w.cells.length : ℚ)⟩ w.cells k).filterMap
          fun t => t.child).length ∧
      r.num_died = (((stepCellSeq src
        ⟨w.step_food_sources.food / (w.cells.length : ℚ)⟩ w.cells k).map
          fun t => t.cell).filter fun c => !c.is_alive).length ∧
      r.world.cells.Perm
        ((((stepCellSeq src ⟨w.step_food_sources.food / (w.cells.length : ℚ)⟩
            w.cells k).map fun t => t.cell).filter fun c => c.is_alive) ++
          ((stepCellSeq src ⟨w.step_food_sources.food / (w.cells.length : ℚ)⟩
            w.cells k).filterMap fun t => t.child)) ∧
      r.world.cells.length + r.num_died = w.cells.length + r.num_added ∧
      r.world.food = (stepCellSeq src
        ⟨w.step_food_sources.food / (w.cells.length : ℚ)⟩ w.cells k).foldl
          (fun f t => F32Positive.sub f t.food_eaten) w.step_food_sources.food := by
  have hlen : ¬ w.step_food_sources.cells.length = 0 := fun h0 =>
    h (List.length_eq_zero.mp h0)
  have hstep : World.step w src k = some
      ⟨{ cells := World.remove_cells
            ((World.step_cells_go src ⟨w.step_food_sources.food / (w.cells.length : ℚ)⟩
                w.cells 0 w.step_food_sources.food k).1 ++
              (World.step_cells_go src ⟨w.step_food_sources.food / (w.cells.length : ℚ)⟩
                w.cells 0 w.step_food_sources.food k).2.2.2.1)
            (World.step_cells_go src ⟨w.step_food_sources.food / (w.cells.length : ℚ)⟩
              w.cells 0 w.step_food_sources.food k).2.2.2.2,
         food := (World.step_cells_go src ⟨w.step_food_sources.food / (w.cells.length : ℚ)⟩
            w.cells 0 w.step_food_sources.food k).2.1,
         food_sources := w.step_food_sources.food_sources },
        (World.step_cells_go src ⟨w.step_food_sources.food / (w.cells.length : ℚ)⟩
          w.cells 0 w.step_food_sources.food k).2.2.1,
        (World.step_cells_go src ⟨w.step_food_sources.food / (w.cells.length : ℚ)⟩
          w.cells 0 w.step_food_sources.food k).2.2.2.1.length,
        (World.step_cells_go src ⟨w.step_food_sources.food / (w.cells.length : ℚ)⟩
          w.cells 0 w.step_food_sources.food k).2.2.2.2.length⟩ := by
    simp only [World.step]
    rw [if_neg hlen]
    rfl
  obtain ⟨h1, h2, h3, h4⟩ := step_cells_go_spec src
    ⟨w.step_food_sources.food / (w.cells.length : ℚ)⟩ w.cells 0 w.step_food_sources.food k
  have hsteppedlen : ((stepCellSeq src
      ⟨w.step_food_sources.food / (w.cells.length : ℚ)⟩ w.cells k).map
        fun t => t.cell).length = w.cells.length := by
    rw [List.length_map, stepCellSeq_length]
  have hperm : (World.remove_cells
      ((World.step_cells_go src ⟨w.step_food_sources.food / (w.cells.length : ℚ)⟩
          w.cells 0 w.step_food_sources.food k).1 ++
        (World.step_cells_go src ⟨w.step_food_sources.food / (w.cells.length : ℚ)⟩
          w.cells 0 w.step_food_sources.food k).2.2.2.1)
      (World.step_cells_go src ⟨w.step_food_sources.food / (w.cells.length : ℚ)⟩
        w.cells 0 w.step_food_sources.food k).2.2.2.2).Perm
      ((((stepCellSeq src ⟨w.step_food_sources.food / (w.cells.length : ℚ)⟩
          w.cells k).map fun t => t.cell).filter fun c => c.is_alive) ++
        ((stepCellSeq src ⟨w.step_food_sources.food / (w.cells.length : ℚ)⟩
          w.cells k).filterMap fun t => t.child)) := by
    rw [h1, h3, h4]
    unfold World.remove_cells
    have hpw := List.pairwise_reverse.mpr (deadIdxSpec_pairwise
      ((stepCellSeq src ⟨w.step_food_sources.food / (w.cells.length : ℚ)⟩
        w.cells k).map fun t => t.cell) 0)
    have hbnd : ∀ j ∈ (deadIdxSpec ((stepCellSeq src
        ⟨w.step_food_sources.food / (w.cells.length : ℚ)⟩ w.cells k).map
          fun t => t.cell) 0).reverse,
        j < (((stepCellSeq src ⟨w.step_food_sources.food / (w.cells.length : ℚ)⟩
          w.cells k).map fun t => t.cell) ++
          ((stepCellSeq src ⟨w.step_food_sources.food / (w.cells.length : ℚ)⟩
            w.cells k).filterMap fun t => t.child)).length := by
      intro j hj
      rw [List.mem_reverse] at hj
      have := (deadIdxSpec_bounds _ 0 j hj).2
      rw [List.length_append]
      omega
    refine (foldl_swap_remove_perm _ _ hpw hbnd).trans ?_
    rw [keepNotIdx_congr _ 0 _ _ (fun p _ _ => List.mem_reverse),
      keepNotIdx_append, keepNotIdx_deadIdxSpec,
      keepNotIdx_all_lt _ _ _ (fun x hx => by
        have := (deadIdxSpec_bounds _ 0 x hx).2
        omega)]
  refine ⟨_, hstep, congrArg List.length h3, ?_, hperm, ?_, h2⟩
  · rw [h4, deadIdxSpec_length]
  · have hl1 := hperm.length_eq
    rw [List.length_append] at hl1
    have hl3 := List.length_eq_length_filter_add (l := (stepCellSeq src
      ⟨w.step_food_sources.food / (w.cells.length : ℚ)⟩ w.cells k).map
        fun t => t.cell) (fun c => c.is_alive)
    have hdied : (World.step_cells_go src
        ⟨w.step_food_sources.food / (w.cells.length : ℚ)⟩
        w.cells 0 w.step_food_sources.food k).2.2.2.2.length =
        (((stepCellSeq src ⟨w.step_food_sources.food / (w.cells.length : ℚ)⟩
          w.cells k).map fun t => t.cell).filter fun c => !c.is_alive).length := by
      rw [h4, deadIdxSpec_length]
    have hadded := congrArg List.length h3
    dsimp only
    omega

/-- Witness for C7: the tick of the one-cell `worldC3` succeeds. -/
theorem world_tick_structure_witness : (World.step worldC3 nullSrc 0).isSome = true := by
  obtain ⟨r, hr, -⟩ := world_tick_structure worldC3 nullSrc 0 (by norm_num [worldC3])
  rw [hr]
  rfl
